import Mathlib

/-!
Shallow embedding of the hyperstone PE loader, translated from
`src/hyperstone/plugins/loaders/pe.py` and `src/hyperstone/plugins/base.py`.
External collaborators that are not part of the repository sources
(the megastone memory subsystem, the lief parser, the stream mapper)
are modelled from the spec where indicated by a doc comment.
Python integers are unbounded, so addresses and machine words are `Int`.
-/

set_option maxRecDepth 100000

namespace Hyperstone

/-- `PELoaderInfo` (pe.py): a PE file that we want to map. -/
structure PELoaderInfo where
  file : String
  base : Option Int := none
  prefer_aslr : Bool := false
deriving DecidableEq

/-- One entry of a PE export table (lief `ExportEntry`: name and function RVA). -/
structure ExportEntry where
  name : String
  function_rva : Int
deriving DecidableEq

/-- One entry of a PE import table (lief `ImportEntry`: name and IAT slot address). -/
structure ImportEntry where
  name : String
  iat_address : Int
deriving DecidableEq

/-- One imported dependency of a PE (lief `Import`: dll name and its entries). -/
structure PEImport where
  name : String
  entries : List ImportEntry
deriving DecidableEq

/-- One entry of a relocation block (lief `RelocationEntry`: type and position). -/
structure RelocationEntry where
  ty : Nat
  position : Int
deriving DecidableEq

/-- The numeric value of `lief.PE.RelocationEntry.BASE_TYPES.ABS`. -/
def relocAbs : Nat := 0

/-- One relocation block (lief `Relocation`: page virtual address and entries). -/
structure Relocation where
  virtual_address : Int
  entries : List RelocationEntry
deriving DecidableEq

/-- A PE section (lief `Section`): only the fields the loader reads. -/
structure PESection where
  name : String
  virtual_address : Int
  virtual_size : Int
deriving DecidableEq

/-- The read-only structured view of a parsed PE file (lief `Binary`),
restricted to the fields `pe.py` reads. `dynamic_base` and `high_entropy_va`
stand for the corresponding `OptionalHeader.DLL_CHARACTERISTICS` flags and
`is_dll` for the `Header.CHARACTERISTICS.DLL` flag. -/
structure PEBinary where
  is_pie : Bool
  imagebase : Int
  virtual_size : Int
  sizeof_headers : Int
  dynamic_base : Bool
  high_entropy_va : Bool
  is_dll : Bool
  sections : List PESection
  imports : List PEImport
  export_entries : List ExportEntry
  relocations : List Relocation
deriving DecidableEq

/-- `MappedPE` (pe.py): a load request paired with its resolved base and parsed view. -/
structure MappedPE where
  info : PELoaderInfo
  base : Int
  pe : PEBinary
deriving DecidableEq

/-- Modelled from the spec: one address range the external memory subsystem
(megastone) reports as mapped, as a start and a size. -/
structure MSSegment where
  start : Int
  size : Int
deriving DecidableEq

/-- Modelled from the spec: two address ranges `[start, start+size)` overlap
(megastone `Segment.overlaps` / `AddressRange` intersection). -/
def MSSegment.overlaps (a b : MSSegment) : Bool :=
  decide (a.start < b.start + b.size) && decide (b.start < a.start + a.size)

/-- Modelled from the spec: the external memory subsystem. It tracks the list of
mapped ranges and performs word-level reads and writes; words are unbounded. -/
structure Mem where
  segments : List MSSegment
  words : Int → Int

/-- Modelled from the spec: megastone `is_mapped(addr, size)` reports true when
the whole range lies inside a single reported region; it can produce false
negatives when a range only partially overlaps a region. -/
def Mem.is_mapped (m : Mem) (addr size : Int) : Bool :=
  m.segments.any fun s =>
    decide (s.start ≤ addr) && decide (addr + size ≤ s.start + s.size)

/-- Modelled from the spec: `write_word` of the memory subsystem. -/
def Mem.write_word (m : Mem) (addr v : Int) : Mem :=
  { m with words := fun a => if a = addr then v else m.words a }

/-- Modelled from the spec: `read_word` of the memory subsystem. -/
def Mem.read_word (m : Mem) (addr : Int) : Int :=
  m.words addr

/-- Modelled from the spec: the effect of binding a byte stream to a segment
descriptor through the stream mapper in immediate mode — the memory subsystem
gains one mapped range. -/
def Mem.addSegment (m : Mem) (s : MSSegment) : Mem :=
  { m with segments := m.segments ++ [s] }

/-- The whole mutable state of a `PELoader` instance together with its attached
emulator: `ready` models `self.emu is not None`, `loaded` the insertion-ordered
dict `self._loaded`, `interactQueue` the list `self._interact_queue`, `mem` the
emulator memory, and `rand`/`randIdx` the stream of raw draws consumed by
`random.getrandbits`. -/
structure LoaderState where
  ready : Bool
  loaded : List (String × MappedPE)
  interactQueue : List PELoaderInfo
  mem : Mem
  rand : Nat → Nat
  randIdx : Nat

/-- Consume one raw draw from the random stream. -/
def LoaderState.draw (st : LoaderState) : Nat × LoaderState :=
  (st.rand st.randIdx, { st with randIdx := st.randIdx + 1 })

/-- Python dict lookup `self._loaded[file]`, as the first binding of the key. -/
def lookupLoaded (st : LoaderState) (file : String) : Option MappedPE :=
  (st.loaded.find? fun p => p.1 = file).map Prod.snd

/-- `needle` is a prefix of `hay` (helper for Python's `in` on strings). -/
def listPre : List Char → List Char → Bool
  | [], _ => true
  | _ :: _, [] => false
  | a :: as, b :: bs => a = b && listPre as bs

/-- `needle` occurs as a contiguous run inside `hay`. -/
def listRun (needle : List Char) : List Char → Bool
  | [] => needle.isEmpty
  | b :: bs => listPre needle (b :: bs) || listRun needle bs

/-- Python's substring test `needle in hay`. -/
def strContains (hay needle : String) : Bool :=
  listRun needle.toList hay.toList

/-- The Python exceptions the loader raises, plus the interpreter-level
recursion limit used to make the recursive dependency load total. -/
inductive HSError
  | notReady
  | badState
  | keyError
  | recursionLimit
deriving DecidableEq

/-- `bits_amount` chosen by `calculate_aslr` (pe.py lines 91-99). -/
def bits_amount (high_entropy is_dll : Bool) : Nat :=
  if high_entropy && is_dll then 19
  else if high_entropy && !is_dll then 17
  else if !high_entropy && is_dll then 14
  else 8

/-- The fixed high-range floor used by `calculate_aslr` for the
(high-entropy, dll) case (pe.py line 92). -/
def aslrFloor : Int := 0x00007ff000000000

/-- `calculate_aslr` (pe.py lines 52-101): `base_value + (getrandbits(bits) << 16)`,
with the raw draw `r` reduced to the requested number of bits. -/
def calculate_aslr (high_entropy is_dll : Bool) (r : Nat) : Int :=
  let base_value : Int := if high_entropy && is_dll then aslrFloor else 0
  base_value + ((r % 2 ^ bits_amount high_entropy is_dll : Nat) : Int) * 65536

/-- Result type of the fallible loader operations: a raised exception carries
the loader state at the moment of the raise (Python mutations persist). -/
abbrev HSResult (α : Type) : Type := Except (HSError × LoaderState) α

namespace PELoader

/-- `PELoader.is_base_ok` (pe.py lines 173-197): the range is free when the
memory subsystem's inclusion check fails and no reported segment overlaps it.
The `self.ready` guard is part of the callers below. -/
def is_base_ok (st : LoaderState) (address : Int) (obj : PEBinary) : Bool :=
  if st.mem.is_mapped address obj.virtual_size then false
  else if st.mem.segments.any fun s => s.overlaps ⟨address, obj.virtual_size⟩ then false
  else true

/-- The retry loop of `PELoader._pick_base` (pe.py lines 227-231): while the
candidate is occupied and retries remain, redraw via `calculate_aslr` alone —
without re-adding `parsed.imagebase`. -/
def aslr_retry (st : LoaderState) (parsed : PEBinary) (high_entropy is_dll : Bool)
    (base : Int) : Nat → Int × LoaderState
  | 0 => (base, st)
  | retry + 1 =>
    if is_base_ok st base parsed then (base, st)
    else
      let d := st.draw
      aslr_retry d.2 parsed high_entropy is_dll (calculate_aslr high_entropy is_dll d.1) retry

/-- The PIE/ASLR stage of `PELoader._pick_base` (pe.py lines 222-240): the first
candidate is `calculate_aslr(...) + parsed.imagebase`, retries go through
`aslr_retry`, and exhaustion falls to the `HSPluginBadStateError` raise. -/
def pick_base_pie (st : LoaderState) (parsed : PEBinary) : HSResult (Int × LoaderState) :=
  if parsed.is_pie then
    let high_entropy := parsed.high_entropy_va
    let is_dll := parsed.is_dll
    let d0 := st.draw
    let first := calculate_aslr high_entropy is_dll d0.1 + parsed.imagebase
    let res := aslr_retry d0.2 parsed high_entropy is_dll first 5
    if is_base_ok res.2 res.1 parsed then .ok (res.1, res.2)
    else .error (.badState, res.2)
  else .error (.badState, st)

/-- The preferred-base stage of `PELoader._pick_base` (pe.py lines 215-220),
entered when ASLR is not preferred: try `parsed.imagebase`, else fall through
to the PIE stage. -/
def pick_base_noaslr (st : LoaderState) (parsed : PEBinary) : HSResult (Int × LoaderState) :=
  if is_base_ok st parsed.imagebase parsed then .ok (parsed.imagebase, st)
  else pick_base_pie st parsed

/-- `PELoader._pick_base` after the explicit-base step (pe.py lines 212-240):
`prefer_aslr` is masked by the `DYNAMIC_BASE` characteristic. -/
def pick_base_main (st : LoaderState) (obj : PELoaderInfo) (parsed : PEBinary) :
    HSResult (Int × LoaderState) :=
  let prefer_aslr := obj.prefer_aslr && parsed.dynamic_base
  if !prefer_aslr then pick_base_noaslr st parsed
  else pick_base_pie st parsed

/-- `PELoader._pick_base` (pe.py lines 199-240): ready guard, then the user's
explicit base (accepted only for a PIE image whose requested range is free),
then the preferred-base / ASLR stages. -/
def pick_base (st : LoaderState) (obj : PELoaderInfo) (parsed : PEBinary) :
    HSResult (Int × LoaderState) :=
  if !st.ready then .error (.notReady, st)
  else
    match obj.base with
    | some b =>
      if parsed.is_pie && is_base_ok st b parsed then .ok (b, st)
      else pick_base_main st obj parsed
    | none => pick_base_main st obj parsed

/-- `PELoader._map_headers` (pe.py lines 242-256): register the header range
`[base, base + sizeof_headers)` through the stream mapper. -/
def map_headers (st : LoaderState) (pefile : PELoaderInfo) : HSResult LoaderState :=
  if !st.ready then .error (.notReady, st)
  else
    match lookupLoaded st pefile.file with
    | none => .error (.keyError, st)
    | some m => .ok { st with mem := st.mem.addSegment ⟨m.base, m.pe.sizeof_headers⟩ }

/-- `PELoader._map_section` (pe.py lines 258-291): register the section range
`[base + virtual_address, … + virtual_size)` through the stream mapper
(the permission computation has no effect on the modelled state). -/
def map_section (st : LoaderState) (sec : PESection) (pefile : PELoaderInfo) :
    HSResult LoaderState :=
  if !st.ready then .error (.notReady, st)
  else
    match lookupLoaded st pefile.file with
    | none => .error (.keyError, st)
    | some m =>
      .ok { st with mem := st.mem.addSegment ⟨m.base + sec.virtual_address, sec.virtual_size⟩ }

/-- The loop `for section in parsed.sections: self._map_section(...)`
(pe.py lines 164-165). -/
def map_sections (st : LoaderState) (pefile : PELoaderInfo) :
    List PESection → HSResult LoaderState
  | [] => .ok st
  | s :: rest =>
    match map_section st s pefile with
    | .ok st' => map_sections st' pefile rest
    | .error e => .error e

/-- The export dictionary built by `PELoader._load_iat` (pe.py lines 326-331):
a Python dict comprehension, so the last entry with a given name wins. -/
def exports_lookup (entries : List ExportEntry) (name : String) : Option ExportEntry :=
  entries.foldl (fun acc e => if e.name = name then some e else acc) none

/-- One iteration of the entry loop of `PELoader._load_iat` (pe.py lines
333-341): skip an entry missing from the export table, otherwise write
`lib.base + function_rva` at `my_base + iat_address`. -/
def iat_write (my_base lib_base : Int) (exports : List ExportEntry)
    (mem : Mem) (entry : ImportEntry) : Mem :=
  match exports_lookup exports entry.name with
  | none => mem
  | some exp => mem.write_word (my_base + entry.iat_address) (lib_base + exp.function_rva)

/-- `PELoader._load_iat` (pe.py lines 321-341). -/
def load_iat (st : LoaderState) (pefile : PELoaderInfo) (dependency : PEImport)
    (lib : MappedPE) : HSResult LoaderState :=
  if !st.ready then .error (.notReady, st)
  else
    match lookupLoaded st pefile.file with
    | none => .error (.keyError, st)
    | some me =>
      match lookupLoaded st lib.info.file with
      | none => .error (.keyError, st)
      | some libm =>
        .ok { st with
              mem := dependency.entries.foldl
                (iat_write me.base lib.base libm.pe.export_entries) st.mem }

/-- One iteration of the entry loop of `PELoader._handle_reloc` (pe.py lines
348-356): skip `ABS` entries, otherwise rewrite the word at
`base + virtual_address + position` to `old - imagebase + base`. -/
def apply_entry (base imagebase va : Int) (mem : Mem) (entry : RelocationEntry) : Mem :=
  if entry.ty = relocAbs then mem
  else
    let reloc_offset := base + va + entry.position
    mem.write_word reloc_offset (mem.read_word reloc_offset - imagebase + base)

/-- One relocation block of `PELoader._handle_reloc` (pe.py lines 346-356). -/
def apply_block (base imagebase : Int) (mem : Mem) (reloc : Relocation) : Mem :=
  reloc.entries.foldl (apply_entry base imagebase reloc.virtual_address) mem

/-- `PELoader._handle_reloc` (pe.py lines 343-356); it has no ready guard. -/
def handle_reloc (st : LoaderState) (pefile : PELoaderInfo) : HSResult LoaderState :=
  match lookupLoaded st pefile.file with
  | none => .error (.keyError, st)
  | some m =>
    .ok { st with mem := m.pe.relocations.foldl (apply_block m.base m.pe.imagebase) st.mem }

/-- The type of the recursive `self._handle` reference that the import-table
scan calls back into (it is the same method at one less recursion depth). -/
def HandleFn : Type := LoaderState → PELoaderInfo → HSResult LoaderState

/-- The queue scan inside `PELoader._handle_iats` (pe.py lines 305-310):
`for item in self._interact_queue: if dependency.name in item.file:
self._handle(item); loaded_item = self._loaded[item.file]; break`. -/
def scan_queue (h : HandleFn) (st : LoaderState) (depName : String) :
    List PELoaderInfo → HSResult (Option MappedPE × LoaderState)
  | [] => .ok (none, st)
  | item :: rest =>
    if strContains item.file depName then
      match h st item with
      | .error e => .error e
      | .ok st' =>
        match lookupLoaded st' item.file with
        | some m => .ok (some m, st')
        | none => .error (.keyError, st')
    else scan_queue h st depName rest

/-- The scan over the snapshot `self._loaded.copy()` inside
`PELoader._handle_iats` (pe.py lines 303-313): a key containing the dependency
name breaks with its mapped image; every key not containing it re-scans the
pending queue (with its recursive-load side effects), overwriting the
accumulator when the queue yields a match. -/
def iat_scan (h : HandleFn) (st : LoaderState) (depName : String)
    (queue : List PELoaderInfo) (acc : Option MappedPE) :
    List String → HSResult (Option MappedPE × LoaderState)
  | [] => .ok (acc, st)
  | key :: rest =>
    if strContains key depName then
      match lookupLoaded st key with
      | some m => .ok (some m, st)
      | none => .error (.keyError, st)
    else
      match scan_queue h st depName queue with
      | .error e => .error e
      | .ok (r, st') =>
        iat_scan h st' depName queue (match r with | some m => some m | none => acc) rest

/-- One dependency of the loop in `PELoader._handle_iats` (pe.py lines
298-319): when the scans produced no image the dependency is skipped with a
warning, otherwise `_load_iat` runs. -/
def handle_dep (h : HandleFn) (st : LoaderState) (pefile : PELoaderInfo)
    (dependency : PEImport) : HSResult LoaderState :=
  match iat_scan h st dependency.name st.interactQueue none (st.loaded.map Prod.fst) with
  | .error e => .error e
  | .ok (none, st') => .ok st'
  | .ok (some lib, st') => load_iat st' pefile dependency lib

/-- The dependency loop of `PELoader._handle_iats` (pe.py line 298). -/
def handle_imports (h : HandleFn) (st : LoaderState) (pefile : PELoaderInfo) :
    List PEImport → HSResult LoaderState
  | [] => .ok st
  | dep :: rest =>
    match handle_dep h st pefile dep with
    | .error e => .error e
    | .ok st' => handle_imports h st' pefile rest

/-- `PELoader._handle_iats` (pe.py lines 293-319). -/
def handle_iats (h : HandleFn) (st : LoaderState) (pefile : PELoaderInfo) :
    HSResult LoaderState :=
  if !st.ready then .error (.notReady, st)
  else
    match lookupLoaded st pefile.file with
    | none => .error (.keyError, st)
    | some m => handle_imports h st pefile m.pe.imports

/-- `PELoader._handle` (pe.py lines 149-171). `parse` models `lief.PE.parse`
as an environment mapping a path to its parsed view, and `fuel` bounds the
recursion through `_handle_iats` (Python's interpreter recursion limit). -/
def handle (parse : String → PEBinary) : Nat → LoaderState → PELoaderInfo → HSResult LoaderState
  | 0, st, _ => .error (.recursionLimit, st)
  | fuel + 1, st, obj =>
    match lookupLoaded st obj.file with
    | some _ => .ok st
    | none =>
      let parsed := parse obj.file
      match pick_base st obj parsed with
      | .error e => .error e
      | .ok (base_address, st1) =>
        let st2 := { st1 with loaded := st1.loaded ++ [(obj.file, ⟨obj, base_address, parsed⟩)] }
        match map_headers st2 obj with
        | .error e => .error e
        | .ok st3 =>
          match map_sections st3 obj parsed.sections with
          | .error e => .error e
          | .ok st4 =>
            match handle_iats (handle parse fuel) st4 obj with
            | .error e => .error e
            | .ok st5 => handle_reloc st5 obj

/-- `Plugin._handle_interact` (base.py lines 40-42): its body is `pass`, and
`PELoader` does not override it. -/
def handle_interact (st : LoaderState) (_objs : List PELoaderInfo) : LoaderState :=
  st

/-- `Plugin.interact` (base.py lines 34-38). -/
def interact (st : LoaderState) (objs : List PELoaderInfo) : LoaderState :=
  if st.ready then handle_interact st objs
  else { st with interactQueue := st.interactQueue ++ objs }

/-- `Plugin.prepare` (base.py lines 26-32): attach, flush the queue through
`_handle_interact`, then discard the queue; a second call is a no-op. -/
def prepare (st : LoaderState) : LoaderState :=
  if st.ready then st
  else
    let st1 := { st with ready := true }
    let st2 := handle_interact st1 st1.interactQueue
    { st2 with interactQueue := [] }

end PELoader

/-- The Python exception raised by a call with too many positional arguments. -/
inductive PyError
  | typeError
deriving DecidableEq

/-- `Plugin.__init__` (base.py lines 18-20) under CPython calling semantics:
it accepts no positional arguments beyond `self`, so any extra arguments raise
`TypeError`; otherwise it creates the empty interact queue and a `None`
emulator. -/
def Plugin_init (extraArgs : List PELoaderInfo) : Except PyError (List PELoaderInfo × Bool) :=
  match extraArgs with
  | [] => .ok ([], false)
  | _ :: _ => .error .typeError

/-- `PELoader.__init__` (pe.py lines 126-131): it forwards `*files` to
`Plugin.__init__` and then creates the empty `_loaded` table. The memory and
random-stream fields are irrelevant placeholders until `prepare` attaches an
emulator. -/
def PELoader_init (files : List PELoaderInfo) : Except PyError LoaderState :=
  match Plugin_init files with
  | .error e => .error e
  | .ok (queue, r) =>
    .ok { ready := r, loaded := [], interactQueue := queue,
          mem := ⟨[], fun _ => 0⟩, rand := fun _ => 0, randIdx := 0 }

/-- The first already-mapped binding whose file identity contains the
dependency name as a substring, in insertion order. -/
def firstContaining : List (String × MappedPE) → String → Option MappedPE
  | [], _ => none
  | (k, m) :: rest, dep => if strContains k dep then some m else firstContaining rest dep

/-- The IAT slot addresses that `_load_iat` actually writes: one per import
entry whose name resolves in the export table. -/
def iatTargets (my_base : Int) (exports : List ExportEntry) : List ImportEntry → List Int
  | [] => []
  | e :: rest =>
    match PELoader.exports_lookup exports e.name with
    | none => iatTargets my_base exports rest
    | some _ => (my_base + e.iat_address) :: iatTargets my_base exports rest

/-- The addresses one relocation block rewrites: one per non-`ABS` entry. -/
def blockTargets (base va : Int) : List RelocationEntry → List Int
  | [] => []
  | e :: rest =>
    if e.ty = relocAbs then blockTargets base va rest
    else (base + va + e.position) :: blockTargets base va rest

/-- All addresses `_handle_reloc` rewrites across the relocation blocks. -/
def relocTargets (base : Int) : List Relocation → List Int
  | [] => []
  | r :: rest => blockTargets base r.virtual_address r.entries ++ relocTargets base rest

/-- Project the loader state out of a `pick_base` outcome (the state travels
with the exception as well as with the result). -/
def stateOf : HSResult (Int × LoaderState) → LoaderState
  | .ok (_, s) => s
  | .error (_, s) => s

/-- The candidate-and-state pair the PIE stage's retry loop produces
(definitionally the `res` of `pick_base_pie`). -/
def pieRes (st : LoaderState) (parsed : PEBinary) : Int × LoaderState :=
  PELoader.aslr_retry { st with randIdx := st.randIdx + 1 } parsed
    parsed.high_entropy_va parsed.is_dll
    (calculate_aslr parsed.high_entropy_va parsed.is_dll (st.rand st.randIdx) + parsed.imagebase) 5

/-- The word a loader run leaves at an address, `none` when the run raised. -/
def resultWord (r : HSResult LoaderState) (a : Int) : Option Int :=
  match r with
  | .ok st => some (st.mem.read_word a)
  | .error _ => none

/-- The base a `pick_base` run returned, `none` when it raised. -/
def resultBase (r : HSResult (Int × LoaderState)) : Option Int :=
  match r with
  | .ok (b, _) => some b
  | .error _ => none

/-- The `(base, virtual size)` ranges of the mapped-image table a loader run
leaves behind, `none` when the run raised. -/
def resultRanges (r : HSResult LoaderState) : Option (List (Int × Int)) :=
  match r with
  | .ok st => some (st.loaded.map fun p => (p.2.base, p.2.pe.virtual_size))
  | .error _ => none

/-- Two `[base, base + size)` ranges intersect. -/
def rangesOverlap (a b : Int × Int) : Bool :=
  MSSegment.overlaps ⟨a.1, a.2⟩ ⟨b.1, b.2⟩

/-- Following the words of claim C3 (not the source): the candidate sequence
the claim describes — the floor constant is added only on the first attempt,
and each of the 5 retries redraws only the random component, keeping the
preferred base. -/
def claimAslrCandidates (high_entropy is_dll : Bool) (preferred : Int)
    (rand : Nat → Nat) : List Int :=
  let floor : Int := if high_entropy && is_dll then aslrFloor else 0
  let bits := bits_amount high_entropy is_dll
  (floor + ((rand 0 % 2 ^ bits : Nat) : Int) * 65536 + preferred) ::
    (List.range 5).map fun i => ((rand (i + 1) % 2 ^ bits : Nat) : Int) * 65536 + preferred

/-- Following the words of claim C3 (not the source): the base the claim's
candidate sequence accepts — the first free candidate, if any. -/
def claimAslrPick (st : LoaderState) (parsed : PEBinary) : Option Int :=
  (claimAslrCandidates parsed.high_entropy_va parsed.is_dll parsed.imagebase st.rand).find?
    fun c => PELoader.is_base_ok st c parsed

/-- A concrete loader state for the test scenarios. -/
def mkState (loaded : List (String × MappedPE)) (queue : List PELoaderInfo)
    (segs : List MSSegment) (rand : Nat → Nat) : LoaderState :=
  { ready := true, loaded := loaded, interactQueue := queue,
    mem := ⟨segs, fun _ => 0⟩, rand := rand, randIdx := 0 }

/-- A minimal parsed view; scenario fixtures override the relevant fields. -/
def emptyBin : PEBinary :=
  { is_pie := false, imagebase := 0, virtual_size := 0, sizeof_headers := 0,
    dynamic_base := false, high_entropy_va := false, is_dll := false,
    sections := [], imports := [], export_entries := [], relocations := [] }

/-- A parser environment that never finds a file (for scenarios that parse nothing). -/
def noParse : String → PEBinary := fun _ => emptyBin

/- Scenario: image `x` declares a dependency named `b`; no mapped identity is
exactly `b`, but the mapped identity `ab` contains it as a substring. -/

def xInfoC2 : PELoaderInfo := ⟨"x", none, false⟩

def xBinC2 : PEBinary :=
  { emptyBin with imagebase := 0x1000, imports := [⟨"b", [⟨"S", 0x100⟩]⟩] }

def yBinC2 : PEBinary := { emptyBin with export_entries := [⟨"S", 0x10⟩] }

def yMappedC2 : MappedPE := ⟨⟨"ab", none, false⟩, 0x5000, yBinC2⟩

def stC2 : LoaderState :=
  mkState [("x", ⟨xInfoC2, 0x1000, xBinC2⟩), ("ab", yMappedC2)] [] [] fun _ => 0

/- Scenario: same two mapped images, but the pending queue holds a request
`qb` whose path also contains the dependency name `b`: scanning the snapshot
key `x` (which does not contain `b`) re-scans the queue and recursively loads
`qb`, even though the later mapped identity `ab` finally supplies the image. -/

def qbInfo : PELoaderInfo := ⟨"qb", none, false⟩

def qbBin : PEBinary := { emptyBin with imagebase := 0x8000, sizeof_headers := 0x100 }

def parseC2q : String → PEBinary := fun _ => qbBin

def qbMapped : MappedPE := ⟨qbInfo, 0x8000, qbBin⟩

def stC2q : LoaderState :=
  mkState [("x", ⟨xInfoC2, 0x1000, xBinC2⟩), ("ab", yMappedC2)] [qbInfo] [] fun _ => 0

/-- The state after the queued `qb` has been recursively loaded: its table
entry appended and its header range registered. -/
def stC2qAfter : LoaderState :=
  { stC2q with
    loaded := [("x", ⟨xInfoC2, 0x1000, xBinC2⟩), ("ab", yMappedC2), ("qb", qbMapped)],
    mem := ⟨[⟨0x8000, 0x100⟩], fun _ => 0⟩ }

/- Scenario: high-entropy dll with preferred base 0x10000 whose first ASLR
candidate range is occupied; the raw draw stream is 0, 1, 2, …. -/

def binC3 : PEBinary :=
  { emptyBin with is_pie := true, dynamic_base := true, high_entropy_va := true,
                  is_dll := true, imagebase := 0x10000, virtual_size := 0x1000 }

def objC3 : PELoaderInfo := ⟨"c3", none, true⟩

def stC3 : LoaderState := mkState [] [] [⟨aslrFloor + 0x10000, 0x1000⟩] fun i => i

/-- An empty address space whose next raw draw is 5. -/
def stFree : LoaderState := mkState [] [] [] fun _ => 5

/- Scenario: image `a` leaves a gap between its header segment and its only
section; image `b` prefers a base inside that gap. -/

def aInfoC4 : PELoaderInfo := ⟨"a", none, false⟩

def bInfoC4 : PELoaderInfo := ⟨"b", none, false⟩

def aBinC4 : PEBinary :=
  { emptyBin with imagebase := 0x1000, virtual_size := 0x3000,
                  sizeof_headers := 0x100, sections := [⟨"s", 0x2000, 0x100⟩] }

def bBinC4 : PEBinary :=
  { emptyBin with imagebase := 0x1500, virtual_size := 0x200, sizeof_headers := 0x50 }

def parseC4 : String → PEBinary := fun f => if f = "a" then aBinC4 else bBinC4

def stC4 : LoaderState := mkState [] [] [] fun _ => 0

/-- Load `a` and then `b` into an initially empty address space. -/
def runC4 : HSResult LoaderState :=
  match PELoader.handle parseC4 1 stC4 aInfoC4 with
  | .error e => .error e
  | .ok st1 => PELoader.handle parseC4 1 st1 bInfoC4

/- Scenario: the whole address space is reported mapped, so no candidate base
is ever free. -/

def satBin : PEBinary :=
  { emptyBin with is_pie := true, dynamic_base := true, high_entropy_va := true,
                  is_dll := true, imagebase := 0x10000, virtual_size := 0x1000 }

def satObj : PELoaderInfo := ⟨"sat", some 0x5000, true⟩

def stC5 : LoaderState := mkState [] [] [⟨-(2 ^ 80 : Int), 2 ^ 81⟩] fun _ => 0

def parseC5 : String → PEBinary := fun _ => satBin

/- Scenario: one relocation block with an `ABS` entry and one non-`ABS` entry
whose slot holds 0x1234 before relocation. -/

def rBinC6 : PEBinary :=
  { emptyBin with imagebase := 0x1000, relocations := [⟨0x100, [⟨relocAbs, 4⟩, ⟨3, 8⟩]⟩] }

def rInfoC6 : PELoaderInfo := ⟨"r", none, false⟩

def rMappedC6 : MappedPE := ⟨rInfoC6, 0x2000, rBinC6⟩

def stC6 : LoaderState :=
  { ready := true, loaded := [("r", rMappedC6)], interactQueue := [],
    mem := ⟨[], fun a => if a = 0x2108 then 0x1234 else 0⟩,
    rand := fun _ => 0, randIdx := 0 }

/- Scenario: image `X` imports `S` (slot offset 0x100) from image `Y`, which
exports `S` at relative address 0x40; `Y` does not export `T`. -/

def xInfoC7 : PELoaderInfo := ⟨"X", none, false⟩

def yInfoC7 : PELoaderInfo := ⟨"Y", none, false⟩

def depC7 : PEImport := ⟨"Y", [⟨"S", 0x100⟩]⟩

def depC8 : PEImport := ⟨"Y", [⟨"T", 0x200⟩]⟩

def yBinC7 : PEBinary := { emptyBin with export_entries := [⟨"S", 0x40⟩] }

def xBinC7 : PEBinary := { emptyBin with imagebase := 0x7000, imports := [depC7] }

def yMappedC7 : MappedPE := ⟨yInfoC7, 0x9000, yBinC7⟩

def stC7 : LoaderState :=
  { ready := true,
    loaded := [("X", ⟨xInfoC7, 0x7000, xBinC7⟩), ("Y", yMappedC7)],
    interactQueue := [],
    mem := ⟨[], fun a => if a = 0x7200 then 7 else 0⟩,
    rand := fun _ => 0, randIdx := 0 }

/- Scenario: a mapped table and a queue in which nothing contains the
dependency name `zzz`. -/

def depC8miss : PEImport := ⟨"zzz", [⟨"S", 0x100⟩]⟩

/- Scenario: file `f` is already mapped; a repeated request carries a
different explicit base and a different randomization preference. -/

def stC9 : LoaderState :=
  mkState [("f", ⟨⟨"f", none, false⟩, 0x4000, emptyBin⟩)] [] [] fun _ => 0

def objC9 : PELoaderInfo := ⟨"f", some 0x9999, true⟩

/-! ### Basic lemmas about the embedding -/

theorem write_word_words (m : Mem) (addr v a : Int) :
    (m.write_word addr v).words a = if a = addr then v else m.words a := rfl

/-- `is_base_ok` reads only the memory component of the state. -/
@[simp] theorem is_base_ok_randIdx (st : LoaderState) (n : Nat) (a : Int) (p : PEBinary) :
    PELoader.is_base_ok { st with randIdx := n } a p = PELoader.is_base_ok st a p := rfl

/-- The retry loop only consumes random draws: its final state is the input
state with an advanced draw index. -/
theorem aslr_retry_state (parsed : PEBinary) (he dll : Bool) :
    ∀ (k : Nat) (st : LoaderState) (base : Int),
      ∃ n, (PELoader.aslr_retry st parsed he dll base k).2 = { st with randIdx := n } := by
  intro k
  induction k with
  | zero => exact fun st base => ⟨st.randIdx, rfl⟩
  | succ k ih =>
    intro st base
    cases hb : PELoader.is_base_ok st base parsed with
    | true => exact ⟨st.randIdx, by simp [PELoader.aslr_retry, hb]⟩
    | false =>
      obtain ⟨n, hn⟩ := ih { st with randIdx := st.randIdx + 1 }
        (calculate_aslr he dll (st.rand st.randIdx))
      exact ⟨n, by simpa [PELoader.aslr_retry, hb, LoaderState.draw] using hn⟩

/-- The PIE stage only consumes random draws. -/
theorem stateOf_pie (st : LoaderState) (parsed : PEBinary) :
    ∃ n, stateOf (PELoader.pick_base_pie st parsed) = { st with randIdx := n } := by
  cases hp : parsed.is_pie with
  | false => exact ⟨st.randIdx, by simp [PELoader.pick_base_pie, hp, stateOf]⟩
  | true =>
    obtain ⟨n, hn⟩ := aslr_retry_state parsed parsed.high_entropy_va parsed.is_dll 5
      { st with randIdx := st.randIdx + 1 }
      (calculate_aslr parsed.high_entropy_va parsed.is_dll (st.rand st.randIdx) + parsed.imagebase)
    refine ⟨n, ?_⟩
    simp only [PELoader.pick_base_pie, hp, if_true, LoaderState.draw]
    split <;> simpa [stateOf] using hn

/-- The preferred-base stage only consumes random draws. -/
theorem stateOf_noaslr (st : LoaderState) (parsed : PEBinary) :
    ∃ n, stateOf (PELoader.pick_base_noaslr st parsed) = { st with randIdx := n } := by
  cases hb : PELoader.is_base_ok st parsed.imagebase parsed with
  | true => exact ⟨st.randIdx, by simp [PELoader.pick_base_noaslr, hb, stateOf]⟩
  | false => simpa [PELoader.pick_base_noaslr, hb] using stateOf_pie st parsed

/-- `pick_base` only consumes random draws, whether it returns or raises. -/
theorem stateOf_pick_base (st : LoaderState) (obj : PELoaderInfo) (parsed : PEBinary) :
    ∃ n, stateOf (PELoader.pick_base st obj parsed) = { st with randIdx := n } := by
  have hmain : ∃ n, stateOf (PELoader.pick_base_main st obj parsed) = { st with randIdx := n } := by
    cases hpa : obj.prefer_aslr && parsed.dynamic_base with
    | false => simpa [PELoader.pick_base_main, hpa] using stateOf_noaslr st parsed
    | true => simpa [PELoader.pick_base_main, hpa] using stateOf_pie st parsed
  cases hr : st.ready with
  | false => exact ⟨st.randIdx, by simp [PELoader.pick_base, hr, stateOf]; rw [← hr]⟩
  | true =>
    cases hob : obj.base with
    | none => simpa [PELoader.pick_base, hr, hob] using hmain
    | some b =>
      cases hg : parsed.is_pie && PELoader.is_base_ok st b parsed with
      | true => exact ⟨st.randIdx, by simp [PELoader.pick_base, hr, hob, hg, stateOf]; rw [← hr]⟩
      | false => simpa [PELoader.pick_base, hr, hob, hg] using hmain

/-- The PIE stage, written through `pieRes` (definitional unfolding). -/
theorem pick_base_pie_true (st : LoaderState) (parsed : PEBinary)
    (hp : parsed.is_pie = true) :
    PELoader.pick_base_pie st parsed =
      if PELoader.is_base_ok (pieRes st parsed).2 (pieRes st parsed).1 parsed
      then .ok ((pieRes st parsed).1, (pieRes st parsed).2)
      else .error (.badState, (pieRes st parsed).2) := by
  unfold PELoader.pick_base_pie pieRes
  rw [hp]
  rfl

/-- A non-PIE image makes the PIE stage raise at once. -/
theorem pick_base_pie_false (st : LoaderState) (parsed : PEBinary)
    (hp : parsed.is_pie = false) :
    PELoader.pick_base_pie st parsed = .error (.badState, st) := by
  unfold PELoader.pick_base_pie
  rw [hp]
  rfl

/-- PIE-stage failures are always the bad-placement exception. -/
theorem pie_error_badState (st : LoaderState) (parsed : PEBinary) (e : HSError)
    (st' : LoaderState) (h : PELoader.pick_base_pie st parsed = .error (e, st')) :
    e = .badState := by
  cases hp : parsed.is_pie with
  | false =>
    rw [pick_base_pie_false st parsed hp] at h
    simp only [Except.error.injEq, Prod.mk.injEq] at h
    exact h.1.symm
  | true =>
    rw [pick_base_pie_true st parsed hp] at h
    cases hok : PELoader.is_base_ok (pieRes st parsed).2 (pieRes st parsed).1 parsed with
    | true => rw [hok] at h; simp at h
    | false =>
      rw [hok] at h
      simp only [Bool.false_eq_true, if_false, Except.error.injEq, Prod.mk.injEq] at h
      exact h.1.symm

/-- Preferred-base-stage failures are always the bad-placement exception. -/
theorem noaslr_error_badState (st : LoaderState) (parsed : PEBinary) (e : HSError)
    (st' : LoaderState) (h : PELoader.pick_base_noaslr st parsed = .error (e, st')) :
    e = .badState := by
  unfold PELoader.pick_base_noaslr at h
  cases hb : PELoader.is_base_ok st parsed.imagebase parsed with
  | true => rw [hb] at h; simp at h
  | false =>
    rw [hb] at h
    simp only [Bool.false_eq_true, if_false] at h
    exact pie_error_badState st parsed e st' h

/-- Base-selection-stage failures (after the explicit-base step) are always
the bad-placement exception. -/
theorem main_error_badState (st : LoaderState) (obj : PELoaderInfo) (parsed : PEBinary)
    (e : HSError) (st' : LoaderState)
    (h : PELoader.pick_base_main st obj parsed = .error (e, st')) : e = .badState := by
  unfold PELoader.pick_base_main at h
  cases hpa : obj.prefer_aslr && parsed.dynamic_base with
  | false =>
    rw [hpa] at h
    exact noaslr_error_badState st parsed e st' h
  | true =>
    rw [hpa] at h
    exact pie_error_badState st parsed e st' h

/-- With the loader attached, a `pick_base` failure is always the
bad-placement exception. -/
theorem pick_base_error_badState (st : LoaderState) (obj : PELoaderInfo)
    (parsed : PEBinary) (e : HSError) (st' : LoaderState) (hr : st.ready = true)
    (h : PELoader.pick_base st obj parsed = .error (e, st')) : e = .badState := by
  unfold PELoader.pick_base at h
  rw [hr] at h
  cases hob : obj.base with
  | none =>
    rw [hob] at h
    simp only [Bool.not_true, Bool.false_eq_true, if_false] at h
    exact main_error_badState st obj parsed e st' h
  | some b =>
    rw [hob] at h
    simp only [Bool.not_true, Bool.false_eq_true, if_false] at h
    cases hg : parsed.is_pie && PELoader.is_base_ok st b parsed with
    | true => rw [hg] at h; simp at h
    | false =>
      rw [hg] at h
      simp only [Bool.false_eq_true, if_false] at h
      exact main_error_badState st obj parsed e st' h

/-- A base accepted by the PIE stage passed the free-range check against the
input state's memory. -/
theorem pie_ok_free (st : LoaderState) (parsed : PEBinary) (b : Int) (st' : LoaderState)
    (h : PELoader.pick_base_pie st parsed = .ok (b, st')) :
    PELoader.is_base_ok st b parsed = true := by
  cases hp : parsed.is_pie with
  | false => rw [pick_base_pie_false st parsed hp] at h; simp at h
  | true =>
    rw [pick_base_pie_true st parsed hp] at h
    obtain ⟨n, hn⟩ := aslr_retry_state parsed parsed.high_entropy_va parsed.is_dll 5
      { st with randIdx := st.randIdx + 1 }
      (calculate_aslr parsed.high_entropy_va parsed.is_dll (st.rand st.randIdx) + parsed.imagebase)
    have hn' : (pieRes st parsed).2 = { st with randIdx := n } := by
      unfold pieRes
      simpa using hn
    cases hok : PELoader.is_base_ok (pieRes st parsed).2 (pieRes st parsed).1 parsed with
    | false => rw [hok] at h; simp at h
    | true =>
      rw [hok] at h
      simp only [if_true, Except.ok.injEq, Prod.mk.injEq] at h
      rw [hn'] at hok
      rw [← h.1]
      simpa using hok

/-- A base accepted by the preferred-base stage passed the free-range check
against the input state's memory. -/
theorem noaslr_ok_free (st : LoaderState) (parsed : PEBinary) (b : Int) (st' : LoaderState)
    (h : PELoader.pick_base_noaslr st parsed = .ok (b, st')) :
    PELoader.is_base_ok st b parsed = true := by
  unfold PELoader.pick_base_noaslr at h
  cases hb : PELoader.is_base_ok st parsed.imagebase parsed with
  | true =>
    rw [hb] at h
    simp only [if_true, Except.ok.injEq, Prod.mk.injEq] at h
    rw [← h.1]
    exact hb
  | false =>
    rw [hb] at h
    simp only [Bool.false_eq_true, if_false] at h
    exact pie_ok_free st parsed b st' h

/-- A base accepted after the explicit-base step passed the free-range check
against the input state's memory. -/
theorem main_ok_free (st : LoaderState) (obj : PELoaderInfo) (parsed : PEBinary)
    (b : Int) (st' : LoaderState)
    (h : PELoader.pick_base_main st obj parsed = .ok (b, st')) :
    PELoader.is_base_ok st b parsed = true := by
  unfold PELoader.pick_base_main at h
  cases hpa : obj.prefer_aslr && parsed.dynamic_base with
  | false => rw [hpa] at h; exact noaslr_ok_free st parsed b st' h
  | true => rw [hpa] at h; exact pie_ok_free st parsed b st' h

/-- `pick_base` with no explicit base request (definitional unfolding). -/
theorem pick_base_eq_none (st : LoaderState) (obj : PELoaderInfo) (parsed : PEBinary)
    (hob : obj.base = none) :
    PELoader.pick_base st obj parsed =
      if !st.ready then .error (.notReady, st)
      else PELoader.pick_base_main st obj parsed := by
  unfold PELoader.pick_base
  rw [hob]

/-- `pick_base` with an explicit base request (definitional unfolding). -/
theorem pick_base_eq_some (st : LoaderState) (obj : PELoaderInfo) (parsed : PEBinary)
    (bb : Int) (hob : obj.base = some bb) :
    PELoader.pick_base st obj parsed =
      if !st.ready then .error (.notReady, st)
      else if parsed.is_pie && PELoader.is_base_ok st bb parsed then .ok (bb, st)
      else PELoader.pick_base_main st obj parsed := by
  unfold PELoader.pick_base
  rw [hob]

/-- Every base `pick_base` returns passed the free-range check against the
input state's memory. -/
theorem pick_base_ok_free (st : LoaderState) (obj : PELoaderInfo) (parsed : PEBinary)
    (b : Int) (st' : LoaderState) (h : PELoader.pick_base st obj parsed = .ok (b, st')) :
    PELoader.is_base_ok st b parsed = true := by
  cases hob : obj.base with
  | none =>
    rw [pick_base_eq_none st obj parsed hob] at h
    cases hr : st.ready with
    | false => rw [hr] at h; simp at h
    | true =>
      rw [hr] at h
      simp only [Bool.not_true, Bool.false_eq_true, if_false] at h
      exact main_ok_free st obj parsed b st' h
  | some bb =>
    rw [pick_base_eq_some st obj parsed bb hob] at h
    cases hr : st.ready with
    | false => rw [hr] at h; simp at h
    | true =>
      rw [hr] at h
      simp only [Bool.not_true, Bool.false_eq_true, if_false] at h
      cases hg : parsed.is_pie && PELoader.is_base_ok st bb parsed with
      | false =>
        rw [hg] at h
        simp only [Bool.false_eq_true, if_false] at h
        exact main_ok_free st obj parsed b st' h
      | true =>
        rw [hg] at h
        simp at h
        rcases h with ⟨h1, h2⟩
        rw [Bool.and_eq_true] at hg
        rw [← h1]
        exact hg.2

/-! ### Claim theorems -/

/-- C1: every `PELoaderInfo` submitted through `interact` (before or after
`prepare`) and every flush performed by `prepare` leaves the mapped-image
table `_loaded` and the emulator memory unchanged, because `PELoader` never
overrides the no-op `Plugin._handle_interact`, so `PELoader._handle` is never
invoked through that path. -/
theorem c1_interact_prepare_inert :
    ∀ (st : LoaderState) (objs : List PELoaderInfo),
      (PELoader.interact st objs).loaded = st.loaded ∧
      (PELoader.interact st objs).mem = st.mem ∧
      (PELoader.prepare st).loaded = st.loaded ∧
      (PELoader.prepare st).mem = st.mem := by
  intro st objs
  unfold PELoader.interact PELoader.prepare PELoader.handle_interact
  cases hr : st.ready <;> simp

/-- C5 (amended context: none needed): when the file is not yet mapped and
base selection raises, loading the image propagates the bad-placement error
and the failure is atomic — no `MappedPE` entry is added and no memory/segment
effect happens before the exception propagates (base selection only consumed
random draws). -/
theorem c5_bad_placement_atomic (parse : String → PEBinary) (fuel : Nat)
    (st : LoaderState) (obj : PELoaderInfo) (e : HSError) (st' : LoaderState)
    (hr : st.ready = true)
    (hnone : lookupLoaded st obj.file = none)
    (herr : PELoader.pick_base st obj (parse obj.file) = .error (e, st')) :
    PELoader.handle parse (fuel + 1) st obj = .error (e, st') ∧
      e = .badState ∧ st'.loaded = st.loaded ∧ st'.mem = st.mem := by
  obtain ⟨n, hn⟩ := stateOf_pick_base st obj (parse obj.file)
  rw [herr] at hn
  simp only [stateOf] at hn
  refine ⟨?_, pick_base_error_badState st obj (parse obj.file) e st' hr herr, ?_, ?_⟩
  · simp [PELoader.handle, hnone, herr]
  · rw [hn]
  · rw [hn]

/-- C5 witness: a saturated address space makes `handle` raise the
bad-placement error with the state unchanged except for six consumed draws. -/
theorem c5_witness :
    PELoader.handle parseC5 1 stC5 satObj =
        .error (.badState, { stC5 with randIdx := 6 }) ∧
      HSError.badState = .badState ∧
      ({ stC5 with randIdx := 6 } : LoaderState).loaded = stC5.loaded ∧
      ({ stC5 with randIdx := 6 } : LoaderState).mem = stC5.mem :=
  c5_bad_placement_atomic parseC5 0 stC5 satObj .badState { stC5 with randIdx := 6 }
    rfl rfl rfl

/-- C9: a load request whose file identity is already in the mapped table is a
complete no-op — the state (existing `MappedPE`, memory, queue) is returned
unchanged, for any request fields and any parser environment. -/
theorem c9_repeat_noop (parse : String → PEBinary) (fuel : Nat) (st : LoaderState)
    (obj : PELoaderInfo) (m : MappedPE) (hm : lookupLoaded st obj.file = some m) :
    PELoader.handle parse (fuel + 1) st obj = .ok st := by
  simp [PELoader.handle, hm]

/-- C9 witness: a repeated request for `f` with a different explicit base and
a different randomization preference returns the state unchanged. -/
theorem c9_witness : PELoader.handle noParse 3 stC9 objC9 = .ok stC9 :=
  c9_repeat_noop noParse 2 stC9 objC9 ⟨⟨"f", none, false⟩, 0x4000, emptyBin⟩ rfl

/-- C10: constructing `PELoader` with one or more initial `PELoaderInfo`
arguments raises `TypeError` (because `Plugin.__init__` accepts no arguments
beyond `self`), and only the zero-argument construction succeeds. -/
theorem c10_init_type_error :
    (∀ files : List PELoaderInfo, files ≠ [] → PELoader_init files = .error .typeError) ∧
      ∃ st, PELoader_init [] = .ok st ∧
        st.loaded = [] ∧ st.interactQueue = [] ∧ st.ready = false := by
  constructor
  · intro files hf
    cases files with
    | nil => exact absurd rfl hf
    | cons a l => rfl
  · exact ⟨_, rfl, rfl, rfl, rfl⟩

/-- C10 witness: constructing the loader with one initial file raises
`TypeError`. -/
theorem c10_witness :
    PELoader_init [⟨"a", none, false⟩] = .error .typeError :=
  c10_init_type_error.1 [⟨"a", none, false⟩] (by decide)

/-- C4 counterexample: loading image `a` (whose section layout leaves a gap
inside its virtual-size range) and then image `b` succeeds, yet the two
`[base, base + virtual size)` ranges overlap — the code checks a candidate
base only against the ranges registered with the memory subsystem, never
against the loader's own mapped-image table. -/
theorem c4_counterexample :
    resultRanges runC4 = some [(0x1000, 0x3000), (0x1500, 0x200)] ∧
      rangesOverlap (0x1000, 0x3000) (0x1500, 0x200) = true := by
  exact ⟨by decide, by decide⟩

/-- C4 (amended): every base returned by base selection passed the free-range
check against the memory subsystem's reported ranges (`is_base_ok`), and base
selection itself changes neither the memory nor the mapped table; full image
virtual-size ranges may still overlap where registered segments leave gaps. -/
theorem c4_amended_base_free (st : LoaderState) (obj : PELoaderInfo)
    (parsed : PEBinary) (b : Int) (st' : LoaderState)
    (h : PELoader.pick_base st obj parsed = .ok (b, st')) :
    PELoader.is_base_ok st b parsed = true ∧ st'.mem = st.mem ∧ st'.loaded = st.loaded := by
  obtain ⟨n, hn⟩ := stateOf_pick_base st obj parsed
  rw [h] at hn
  simp only [stateOf] at hn
  exact ⟨pick_base_ok_free st obj parsed b st' h, by rw [hn], by rw [hn]⟩

/-- C4 witness: the base accepted for image `a` on the empty address space
passed the free-range check. -/
theorem c4_witness :
    PELoader.is_base_ok stC4 0x1000 aBinC4 = true ∧
      stC4.mem = stC4.mem ∧ stC4.loaded = stC4.loaded :=
  c4_amended_base_free stC4 aInfoC4 aBinC4 0x1000 stC4 rfl

/-- C3 counterexample: with the first ASLR candidate occupied, the code
returns `aslrFloor + 0x20000` (the retry re-added the floor constant via
`calculate_aslr` but dropped the preferred base), while the claim's candidate
sequence — floor only on the first attempt, preferred base kept on every
retry — accepts `0x20000`. -/
theorem c3_counterexample :
    resultBase (PELoader.pick_base stC3 objC3 binC3) = some (aslrFloor + 0x20000) ∧
      claimAslrPick stC3 binC3 = some 0x20000 ∧
      (aslrFloor + 0x20000 : Int) ≠ 0x20000 := by
  exact ⟨by decide, by decide, by decide⟩

/-- C3 (amended): the entropy table is 19/17/14/8 bits for
(high-entropy, library) = (T,T)/(T,F)/(F,T)/(F,F); `calculate_aslr` adds the
fixed floor constant exactly when both flags hold; the first candidate is
`calculate_aslr(...) + preferred base` and is returned when free; and each of
the up-to-5 retries recomputes the candidate as `calculate_aslr(...)` alone —
so the preferred base, not the floor constant, is added only on the first
attempt. -/
theorem c3_amended_aslr :
    (bits_amount true true = 19 ∧ bits_amount true false = 17 ∧
      bits_amount false true = 14 ∧ bits_amount false false = 8) ∧
    (∀ (he dll : Bool) (r : Nat),
      calculate_aslr he dll r =
        (if he && dll then aslrFloor else 0) +
          ((r % 2 ^ bits_amount he dll : Nat) : Int) * 65536) ∧
    (∀ (st : LoaderState) (parsed : PEBinary),
      parsed.is_pie = true →
      PELoader.is_base_ok st
          (calculate_aslr parsed.high_entropy_va parsed.is_dll (st.rand st.randIdx) +
            parsed.imagebase) parsed = true →
      PELoader.pick_base_pie st parsed =
        .ok (calculate_aslr parsed.high_entropy_va parsed.is_dll (st.rand st.randIdx) +
               parsed.imagebase,
             { st with randIdx := st.randIdx + 1 })) ∧
    (∀ (st : LoaderState) (parsed : PEBinary) (he dll : Bool) (base : Int) (k : Nat),
      PELoader.is_base_ok st base parsed = false →
      PELoader.aslr_retry st parsed he dll base (k + 1) =
        PELoader.aslr_retry { st with randIdx := st.randIdx + 1 } parsed he dll
          (calculate_aslr he dll (st.rand st.randIdx)) k) := by
  refine ⟨⟨rfl, rfl, rfl, rfl⟩, fun he dll r => rfl, ?_, ?_⟩
  · intro st parsed hp hok
    have h5 : (5 : Nat) = 4 + 1 := rfl
    have hretry : PELoader.aslr_retry { st with randIdx := st.randIdx + 1 } parsed
        parsed.high_entropy_va parsed.is_dll
        (calculate_aslr parsed.high_entropy_va parsed.is_dll (st.rand st.randIdx) +
          parsed.imagebase) 5 =
        (calculate_aslr parsed.high_entropy_va parsed.is_dll (st.rand st.randIdx) +
          parsed.imagebase, { st with randIdx := st.randIdx + 1 }) := by
      rw [h5]
      simp [PELoader.aslr_retry, hok]
    rw [pick_base_pie_true st parsed hp]
    unfold pieRes
    rw [hretry]
    simpa using hok
  · intro st parsed he dll base k hfree
    simp [PELoader.aslr_retry, hfree, LoaderState.draw]

/-- C3 witness: the free-first-candidate clause at a concrete empty state and
the retry clause at the concrete occupied state. -/
theorem c3_witness :
    PELoader.pick_base_pie stFree binC3 =
        .ok (calculate_aslr binC3.high_entropy_va binC3.is_dll
               (stFree.rand stFree.randIdx) + binC3.imagebase,
             { stFree with randIdx := stFree.randIdx + 1 }) ∧
      PELoader.aslr_retry stC3 binC3 true true (aslrFloor + 0x10000) (4 + 1) =
        PELoader.aslr_retry { stC3 with randIdx := stC3.randIdx + 1 } binC3 true true
          (calculate_aslr true true (stC3.rand stC3.randIdx)) 4 :=
  ⟨c3_amended_aslr.2.2.1 stFree binC3 rfl (by decide),
   c3_amended_aslr.2.2.2 stC3 binC3 true true (aslrFloor + 0x10000) 4 (by decide)⟩

/-! ### Lemmas about the import-resolution scans -/

/-- An empty pending queue yields no candidate and leaves the state alone. -/
theorem scan_queue_nil (h : PELoader.HandleFn) (st : LoaderState) (dep : String) :
    PELoader.scan_queue h st dep [] = .ok (none, st) := rfl

/-- In a duplicate-free association list, `find?` on a member's key returns
that member. -/
theorem find_self_nodup :
    ∀ (l : List (String × MappedPE)), (l.map Prod.fst).Nodup →
      ∀ p ∈ l, (l.find? fun q => q.1 = p.1) = some p := by
  intro l
  induction l with
  | nil => intro _ p hp; cases hp
  | cons a l ih =>
    intro hnd p hp
    have hnd0 : (a.1 :: l.map Prod.fst).Nodup := by simpa using hnd
    have hnd' := List.nodup_cons.mp hnd0
    rcases List.mem_cons.mp hp with rfl | hp'
    · simp [List.find?]
    · have hne : ¬(a.1 = p.1) := by
        intro he
        exact hnd'.1 (he ▸ List.mem_map_of_mem Prod.fst hp')
      rw [List.find?]
      rw [decide_eq_false hne]
      exact ih (by simpa using hnd'.2) p hp'

/-- In a duplicate-free mapped table, looking a member's key up yields its
image. -/
theorem lookup_self_nodup (st : LoaderState) (hnd : (st.loaded.map Prod.fst).Nodup)
    (p : String × MappedPE) (hp : p ∈ st.loaded) : lookupLoaded st p.1 = some p.2 := by
  unfold lookupLoaded
  rw [find_self_nodup st.loaded hnd p hp]
  rfl

/-- With an empty pending queue, the snapshot scan returns the first mapped
image whose key contains the dependency name — the substring test, in
insertion order — and otherwise the accumulator, without touching the state. -/
theorem iat_scan_nil_queue (h : PELoader.HandleFn) (st : LoaderState) (dep : String) :
    ∀ (l : List (String × MappedPE)) (acc : Option MappedPE),
      (∀ p ∈ l, lookupLoaded st p.1 = some p.2) →
      PELoader.iat_scan h st dep [] acc (l.map Prod.fst) =
        .ok (match firstContaining l dep with
             | some m => some m
             | none => acc, st) := by
  intro l
  induction l with
  | nil => intro acc _; rfl
  | cons a l ih =>
    intro acc hl
    obtain ⟨k, m⟩ := a
    cases hc : strContains k dep with
    | true =>
      have hk := hl (k, m) (List.mem_cons_self _ _)
      simp only [List.map_cons, PELoader.iat_scan, hc, if_true]
      rw [hk]
      simp [firstContaining, hc]
    | false =>
      have := ih acc fun p hp => hl p (List.mem_cons_of_mem _ hp)
      simp only [List.map_cons, PELoader.iat_scan, hc, Bool.false_eq_true, if_false,
        scan_queue_nil]
      rw [this]
      simp [firstContaining, hc]

/-- A queue in which no path contains the dependency name yields no candidate
and leaves the state alone. -/
theorem scan_queue_no_match (h : PELoader.HandleFn) (st : LoaderState) (dep : String) :
    ∀ (q : List PELoaderInfo), (∀ item ∈ q, strContains item.file dep = false) →
      PELoader.scan_queue h st dep q = .ok (none, st) := by
  intro q
  induction q with
  | nil => intro _; rfl
  | cons a q ih =>
    intro hq
    simp only [PELoader.scan_queue, hq a (List.mem_cons_self _ _), Bool.false_eq_true,
      if_false]
    exact ih fun i hi => hq i (List.mem_cons_of_mem _ hi)

/-- When neither the snapshot keys nor the queue contain the dependency name,
the whole scan returns the accumulator and leaves the state alone. -/
theorem iat_scan_no_match (h : PELoader.HandleFn) (st : LoaderState) (dep : String)
    (queue : List PELoaderInfo) (acc : Option MappedPE)
    (hqueue : ∀ item ∈ queue, strContains item.file dep = false) :
    ∀ keys : List String, (∀ k ∈ keys, strContains k dep = false) →
      PELoader.iat_scan h st dep queue acc keys = .ok (acc, st) := by
  intro keys
  induction keys with
  | nil => intro _; rfl
  | cons k keys ih =>
    intro hk
    simp only [PELoader.iat_scan, hk k (List.mem_cons_self _ _), Bool.false_eq_true,
      if_false, scan_queue_no_match h st dep queue hqueue]
    exact ih fun kk hkk => hk kk (List.mem_cons_of_mem _ hkk)

/-! ### C2: how a dependency's image is located -/

/-- C2 counterexample: image `x` depends on `b`; no mapped file identity is
exactly `b` and the pending queue is empty, so by the claim all imports from
`b` must be skipped and the slot at `0x1100` stay `0` — but the code resolves
the dependency against the mapped identity `ab` by the substring test and
writes `0x5010` there. -/
theorem c2_counterexample :
    (stC2.loaded.map Prod.fst).all (fun k => k ≠ "b") = true ∧
      stC2.interactQueue = [] ∧
      stC2.mem.read_word 0x1100 = 0 ∧
      resultWord (PELoader.handle_iats (PELoader.handle noParse 1) stC2 xInfoC2) 0x1100 =
        some 0x5010 ∧
      (0x5010 : Int) ≠ 0 := by
  exact ⟨by decide, rfl, rfl, by decide, by decide⟩

/-- The queue scan loads the first request whose path contains the dependency
name through the supplied pipeline and returns its mapped image and the
post-load state; earlier non-containing requests are passed over. -/
theorem scan_queue_first (h : PELoader.HandleFn) (st : LoaderState) (dep : String)
    (it : PELoaderInfo) (q2 : List PELoaderInfo) (st' : LoaderState) (m : MappedPE)
    (hit : strContains it.file dep = true)
    (hh : h st it = .ok st')
    (hm : lookupLoaded st' it.file = some m) :
    ∀ q1 : List PELoaderInfo, (∀ j ∈ q1, strContains j.file dep = false) →
      PELoader.scan_queue h st dep (q1 ++ it :: q2) = .ok (some m, st') := by
  intro q1
  induction q1 with
  | nil => intro _; simp [PELoader.scan_queue, hit, hh, hm]
  | cons a q1 ih =>
    intro hq
    simp only [List.cons_append, PELoader.scan_queue, hq a (List.mem_cons_self _ _),
      Bool.false_eq_true, if_false]
    exact ih fun j hj => hq j (List.mem_cons_of_mem _ hj)

/-- C2 (amended): (i) the snapshot scan stops at the first already-mapped file
identity that contains the dependency's declared name as a substring — not an
exact identity match — and yields its image with the state untouched; (ii) at
every mapped identity not containing the name the pending queue is re-scanned,
and the first request whose path contains the name is recursively loaded
through the full `_handle` pipeline, its image overwriting the accumulator —
so the load side effect happens even when a later mapped identity matches;
(iii) with an empty queue the dependency resolves to the first containing
mapped identity in insertion order, and when none contains the name all its
imports are skipped with the state unchanged; (iv) the scan's outcome decides
the dependency: no candidate means skip (keeping the scan's final state), a
candidate is handed to `_load_iat`. -/
theorem c2_amended_locate :
    (∀ (h : PELoader.HandleFn) (st : LoaderState) (dep : String)
        (queue : List PELoaderInfo) (acc : Option MappedPE) (k : String)
        (keys : List String) (m : MappedPE),
      strContains k dep = true → lookupLoaded st k = some m →
      PELoader.iat_scan h st dep queue acc (k :: keys) = .ok (some m, st)) ∧
    (∀ (parse : String → PEBinary) (fuel : Nat) (st : LoaderState) (dep : String)
        (q1 q2 : List PELoaderInfo) (it : PELoaderInfo) (acc : Option MappedPE)
        (k : String) (keys : List String) (st' : LoaderState) (m : MappedPE),
      strContains k dep = false →
      (∀ j ∈ q1, strContains j.file dep = false) →
      strContains it.file dep = true →
      PELoader.handle parse fuel st it = .ok st' →
      lookupLoaded st' it.file = some m →
      PELoader.iat_scan (PELoader.handle parse fuel) st dep (q1 ++ it :: q2) acc
          (k :: keys) =
        PELoader.iat_scan (PELoader.handle parse fuel) st' dep (q1 ++ it :: q2)
          (some m) keys) ∧
    (∀ (h : PELoader.HandleFn) (st : LoaderState) (pf : PELoaderInfo) (dep : PEImport),
      st.interactQueue = [] → (st.loaded.map Prod.fst).Nodup →
      PELoader.handle_dep h st pf dep =
        match firstContaining st.loaded dep.name with
        | none => .ok st
        | some lib => PELoader.load_iat st pf dep lib) ∧
    (∀ (h : PELoader.HandleFn) (st : LoaderState) (pf : PELoaderInfo) (dep : PEImport)
        (res : Option MappedPE) (stEnd : LoaderState),
      PELoader.iat_scan h st dep.name st.interactQueue none (st.loaded.map Prod.fst) =
        .ok (res, stEnd) →
      PELoader.handle_dep h st pf dep =
        match res with
        | none => .ok stEnd
        | some lib => PELoader.load_iat stEnd pf dep lib) := by
  refine ⟨?_, ?_, ?_, ?_⟩
  · intro h st dep queue acc k keys m hc hm
    simp [PELoader.iat_scan, hc, hm]
  · intro parse fuel st dep q1 q2 it acc k keys st' m hk hq1 hit hh hm
    simp only [PELoader.iat_scan, hk, Bool.false_eq_true, if_false]
    rw [scan_queue_first (PELoader.handle parse fuel) st dep it q2 st' m hit hh hm q1 hq1]
  · intro h st pf dep hq hnd
    unfold PELoader.handle_dep
    rw [hq]
    rw [iat_scan_nil_queue h st dep.name st.loaded none
      (fun p hp => lookup_self_nodup st hnd p hp)]
    cases firstContaining st.loaded dep.name <;> rfl
  · intro h st pf dep res stEnd hscan
    unfold PELoader.handle_dep
    rw [hscan]
    cases res <;> rfl

/-- C2 witness: with the queue holding `qb`, scanning the non-containing key
`x` recursively loads `qb` (its entry and header range appear in the state),
the later mapped identity `ab` then supplies the image, and the dependency is
handed to `_load_iat` against `ab`'s image in the post-load state; with the
queue empty, the same dependency resolves to `ab` directly. -/
theorem c2_witness :
    PELoader.iat_scan (PELoader.handle parseC2q 1) stC2q "b" [qbInfo] none ["x", "ab"] =
        PELoader.iat_scan (PELoader.handle parseC2q 1) stC2qAfter "b" [qbInfo]
          (some qbMapped) ["ab"] ∧
      PELoader.iat_scan (PELoader.handle parseC2q 1) stC2qAfter "b" [qbInfo]
          (some qbMapped) ["ab"] = .ok (some yMappedC2, stC2qAfter) ∧
      PELoader.handle_dep (PELoader.handle parseC2q 1) stC2q xInfoC2
          ⟨"b", [⟨"S", 0x100⟩]⟩ =
        PELoader.load_iat stC2qAfter xInfoC2 ⟨"b", [⟨"S", 0x100⟩]⟩ yMappedC2 ∧
      stC2qAfter.loaded.map Prod.fst = ["x", "ab", "qb"] ∧
      PELoader.handle_dep (PELoader.handle noParse 1) stC2 xInfoC2
          ⟨"b", [⟨"S", 0x100⟩]⟩ =
        PELoader.load_iat stC2 xInfoC2 ⟨"b", [⟨"S", 0x100⟩]⟩ yMappedC2 := by
  have hstep : PELoader.iat_scan (PELoader.handle parseC2q 1) stC2q "b" [qbInfo] none
      ["x", "ab"] =
      PELoader.iat_scan (PELoader.handle parseC2q 1) stC2qAfter "b" [qbInfo]
        (some qbMapped) ["ab"] :=
    c2_amended_locate.2.1 parseC2q 1 stC2q "b" [] [] qbInfo none "x" ["ab"]
      stC2qAfter qbMapped (by decide) (by intro j hj; cases hj) (by decide) rfl rfl
  have hbreak : PELoader.iat_scan (PELoader.handle parseC2q 1) stC2qAfter "b" [qbInfo]
      (some qbMapped) ["ab"] = .ok (some yMappedC2, stC2qAfter) :=
    c2_amended_locate.1 (PELoader.handle parseC2q 1) stC2qAfter "b" [qbInfo]
      (some qbMapped) "ab" [] yMappedC2 (by decide) rfl
  refine ⟨hstep, hbreak, ?_, rfl, ?_⟩
  · exact c2_amended_locate.2.2.2 (PELoader.handle parseC2q 1) stC2q xInfoC2
      ⟨"b", [⟨"S", 0x100⟩]⟩ (some yMappedC2) stC2qAfter (hstep.trans hbreak)
  · exact c2_amended_locate.2.2.1 (PELoader.handle noParse 1) stC2 xInfoC2
      ⟨"b", [⟨"S", 0x100⟩]⟩ rfl (by decide)

/-! ### Lemmas about the IAT write loop -/

/-- An address outside the resolved slots is untouched by the IAT write loop. -/
theorem iat_fold_frame (mb lb : Int) (ex : List ExportEntry) (a : Int) :
    ∀ (entries : List ImportEntry) (mem : Mem),
      a ∉ iatTargets mb ex entries →
      (entries.foldl (PELoader.iat_write mb lb ex) mem).words a = mem.words a := by
  intro entries
  induction entries with
  | nil => intro mem _; rfl
  | cons e rest ih =>
    intro mem ha
    rw [List.foldl_cons]
    cases hx : PELoader.exports_lookup ex e.name with
    | none =>
      have htar : iatTargets mb ex (e :: rest) = iatTargets mb ex rest := by
        simp [iatTargets, hx]
      have hw : PELoader.iat_write mb lb ex mem e = mem := by
        simp [PELoader.iat_write, hx]
      rw [hw]
      exact ih mem (htar ▸ ha)
    | some x =>
      have htar : iatTargets mb ex (e :: rest) =
          (mb + e.iat_address) :: iatTargets mb ex rest := by
        simp [iatTargets, hx]
      rw [htar] at ha
      have hne : a ≠ mb + e.iat_address := fun hh => ha (hh ▸ List.mem_cons_self _ _)
      have hrest : a ∉ iatTargets mb ex rest := fun hm => ha (List.mem_cons_of_mem _ hm)
      have hw : PELoader.iat_write mb lb ex mem e =
          mem.write_word (mb + e.iat_address) (lb + x.function_rva) := by
        simp [PELoader.iat_write, hx]
      rw [hw, ih _ hrest]
      simp [Mem.write_word, hne]

/-- When the resolved slot addresses are pairwise distinct, a resolved
entry's slot ends up holding `lib base + export RVA`. -/
theorem iat_fold_write (mb lb : Int) (ex : List ExportEntry) :
    ∀ (entries : List ImportEntry) (mem : Mem) (entry : ImportEntry) (x : ExportEntry),
      entry ∈ entries → PELoader.exports_lookup ex entry.name = some x →
      (iatTargets mb ex entries).Nodup →
      (entries.foldl (PELoader.iat_write mb lb ex) mem).words (mb + entry.iat_address) =
        lb + x.function_rva := by
  intro entries
  induction entries with
  | nil => intro mem entry x hmem; cases hmem
  | cons e rest ih =>
    intro mem entry x hmem hx hnd
    rw [List.foldl_cons]
    rcases List.mem_cons.mp hmem with rfl | hmem'
    · have htar : iatTargets mb ex (entry :: rest) =
          (mb + entry.iat_address) :: iatTargets mb ex rest := by
        simp [iatTargets, hx]
      rw [htar] at hnd
      have hnot : (mb + entry.iat_address) ∉ iatTargets mb ex rest :=
        (List.nodup_cons.mp hnd).1
      have hw : PELoader.iat_write mb lb ex mem entry =
          mem.write_word (mb + entry.iat_address) (lb + x.function_rva) := by
        simp [PELoader.iat_write, hx]
      rw [hw, iat_fold_frame mb lb ex _ rest _ hnot]
      simp [Mem.write_word]
    · refine ih _ entry x hmem' hx ?_
      cases hxe : PELoader.exports_lookup ex e.name with
      | none =>
        have htar : iatTargets mb ex (e :: rest) = iatTargets mb ex rest := by
          simp [iatTargets, hxe]
        exact htar ▸ hnd
      | some _ =>
        have htar : iatTargets mb ex (e :: rest) =
            (mb + e.iat_address) :: iatTargets mb ex rest := by
          simp [iatTargets, hxe]
        exact (List.nodup_cons.mp (htar ▸ hnd)).2

/-! ### Lemmas about the relocation loop -/

/-- A non-`ABS` entry's address is among its block's rewrite targets. -/
theorem mem_blockTargets (base va : Int) :
    ∀ (entries : List RelocationEntry) (entry : RelocationEntry),
      entry ∈ entries → entry.ty ≠ relocAbs →
      (base + va + entry.position) ∈ blockTargets base va entries := by
  intro entries
  induction entries with
  | nil => intro entry hmem; cases hmem
  | cons e rest ih =>
    intro entry hmem habs
    rcases List.mem_cons.mp hmem with rfl | hmem'
    · simp [blockTargets, habs]
    · cases hty : decide (e.ty = relocAbs) with
      | true =>
        simp only [blockTargets, of_decide_eq_true hty, if_true]
        exact ih entry hmem' habs
      | false =>
        simp only [blockTargets, of_decide_eq_false hty, if_false]
        exact List.mem_cons_of_mem _ (ih entry hmem' habs)

/-- A block's targets are among the whole relocation pass's targets. -/
theorem mem_relocTargets (base : Int) :
    ∀ (blocks : List Relocation) (block : Relocation), block ∈ blocks →
      ∀ a ∈ blockTargets base block.virtual_address block.entries,
        a ∈ relocTargets base blocks := by
  intro blocks
  induction blocks with
  | nil => intro block hmem; cases hmem
  | cons b rest ih =>
    intro block hmem a ha
    rcases List.mem_cons.mp hmem with rfl | hmem'
    · exact List.mem_append_left _ ha
    · exact List.mem_append_right _ (ih block hmem' a ha)

/-- An address outside a block's targets is untouched by that block. -/
theorem entry_fold_frame (base ib va : Int) (a : Int) :
    ∀ (entries : List RelocationEntry) (mem : Mem),
      a ∉ blockTargets base va entries →
      (entries.foldl (PELoader.apply_entry base ib va) mem).words a = mem.words a := by
  intro entries
  induction entries with
  | nil => intro mem _; rfl
  | cons e rest ih =>
    intro mem ha
    rw [List.foldl_cons]
    cases hty : decide (e.ty = relocAbs) with
    | true =>
      have habs := of_decide_eq_true hty
      have htar : blockTargets base va (e :: rest) = blockTargets base va rest := by
        simp [blockTargets, habs]
      have hw : PELoader.apply_entry base ib va mem e = mem := by
        simp [PELoader.apply_entry, habs]
      rw [hw]
      exact ih mem (htar ▸ ha)
    | false =>
      have habs := of_decide_eq_false hty
      have htar : blockTargets base va (e :: rest) =
          (base + va + e.position) :: blockTargets base va rest := by
        simp [blockTargets, habs]
      rw [htar] at ha
      have hne : a ≠ base + va + e.position := fun hh => ha (hh ▸ List.mem_cons_self _ _)
      have hrest : a ∉ blockTargets base va rest := fun hm => ha (List.mem_cons_of_mem _ hm)
      have hw : PELoader.apply_entry base ib va mem e =
          mem.write_word (base + va + e.position)
            (mem.read_word (base + va + e.position) - ib + base) := by
        simp [PELoader.apply_entry, habs]
      rw [hw, ih _ hrest]
      simp [Mem.write_word, hne]

/-- When a block's targets are pairwise distinct, its non-`ABS` entry's slot
is rewritten from `v` to `v - preferred base + resolved base`. -/
theorem entry_fold_write (base ib va : Int) :
    ∀ (entries : List RelocationEntry) (mem : Mem) (entry : RelocationEntry),
      entry ∈ entries → entry.ty ≠ relocAbs →
      (blockTargets base va entries).Nodup →
      (entries.foldl (PELoader.apply_entry base ib va) mem).words
          (base + va + entry.position) =
        mem.words (base + va + entry.position) - ib + base := by
  intro entries
  induction entries with
  | nil => intro mem entry hmem; cases hmem
  | cons e rest ih =>
    intro mem entry hmem habs hnd
    rw [List.foldl_cons]
    rcases List.mem_cons.mp hmem with rfl | hmem'
    · have htar : blockTargets base va (entry :: rest) =
          (base + va + entry.position) :: blockTargets base va rest := by
        simp [blockTargets, habs]
      rw [htar] at hnd
      have hnot := (List.nodup_cons.mp hnd).1
      have hw : PELoader.apply_entry base ib va mem entry =
          mem.write_word (base + va + entry.position)
            (mem.read_word (base + va + entry.position) - ib + base) := by
        simp [PELoader.apply_entry, habs]
      rw [hw, entry_fold_frame base ib va _ rest _ hnot]
      simp [Mem.write_word, Mem.read_word]
    · cases hty : decide (e.ty = relocAbs) with
      | true =>
        have habse := of_decide_eq_true hty
        have htar : blockTargets base va (e :: rest) = blockTargets base va rest := by
          simp [blockTargets, habse]
        have hw : PELoader.apply_entry base ib va mem e = mem := by
          simp [PELoader.apply_entry, habse]
        rw [hw]
        exact ih mem entry hmem' habs (htar ▸ hnd)
      | false =>
        have habse := of_decide_eq_false hty
        have htar : blockTargets base va (e :: rest) =
            (base + va + e.position) :: blockTargets base va rest := by
          simp [blockTargets, habse]
        rw [htar] at hnd
        have hnd' := List.nodup_cons.mp hnd
        have hne : base + va + entry.position ≠ base + va + e.position := by
          intro hh
          exact hnd'.1 (hh ▸ mem_blockTargets base va rest entry hmem' habs)
        have hw : PELoader.apply_entry base ib va mem e =
            mem.write_word (base + va + e.position)
              (mem.read_word (base + va + e.position) - ib + base) := by
          simp [PELoader.apply_entry, habse]
        rw [hw, ih _ entry hmem' habs hnd'.2]
        simp [Mem.write_word, hne]

/-- An address outside all rewrite targets is untouched by the whole
relocation pass. -/
theorem block_fold_frame (base ib : Int) (a : Int) :
    ∀ (blocks : List Relocation) (mem : Mem),
      a ∉ relocTargets base blocks →
      (blocks.foldl (PELoader.apply_block base ib) mem).words a = mem.words a := by
  intro blocks
  induction blocks with
  | nil => intro mem _; rfl
  | cons b rest ih =>
    intro mem ha
    have ha1 : a ∉ blockTargets base b.virtual_address b.entries :=
      fun hm => ha (List.mem_append_left _ hm)
    have ha2 : a ∉ relocTargets base rest := fun hm => ha (List.mem_append_right _ hm)
    rw [List.foldl_cons, ih _ ha2]
    exact entry_fold_frame base ib b.virtual_address a b.entries mem ha1

/-- When all rewrite targets are pairwise distinct, each non-`ABS` entry's
slot ends up rewritten from its initial value `v` to
`v - preferred base + resolved base`. -/
theorem block_fold_write (base ib : Int) :
    ∀ (blocks : List Relocation) (mem : Mem) (block : Relocation)
      (entry : RelocationEntry),
      block ∈ blocks → entry ∈ block.entries → entry.ty ≠ relocAbs →
      (relocTargets base blocks).Nodup →
      (blocks.foldl (PELoader.apply_block base ib) mem).words
          (base + block.virtual_address + entry.position) =
        mem.words (base + block.virtual_address + entry.position) - ib + base := by
  intro blocks
  induction blocks with
  | nil => intro mem block entry hmem; cases hmem
  | cons b rest ih =>
    intro mem block entry hmem hent habs hnd
    have hnd3 := List.nodup_append.mp (by simpa [relocTargets] using hnd)
    rw [List.foldl_cons]
    rcases List.mem_cons.mp hmem with rfl | hmem'
    · have htin : (base + block.virtual_address + entry.position) ∈
          blockTargets base block.virtual_address block.entries :=
        mem_blockTargets base block.virtual_address block.entries entry hent habs
      have hout : (base + block.virtual_address + entry.position) ∉
          relocTargets base rest := fun hm => hnd3.2.2 htin hm
      rw [block_fold_frame base ib _ rest _ hout]
      exact entry_fold_write base ib block.virtual_address block.entries mem entry
        hent habs hnd3.1
    · have htin : (base + block.virtual_address + entry.position) ∈
          relocTargets base rest :=
        mem_relocTargets base rest block hmem' _
          (mem_blockTargets base block.virtual_address block.entries entry hent habs)
      have hout : (base + block.virtual_address + entry.position) ∉
          blockTargets base b.virtual_address b.entries := fun hm => hnd3.2.2 hm htin
      rw [ih _ block entry hmem' hent habs hnd3.2.1]
      have hfr : (PELoader.apply_block base ib mem b).words
          (base + block.virtual_address + entry.position) =
          mem.words (base + block.virtual_address + entry.position) :=
        entry_fold_frame base ib b.virtual_address _ b.entries mem hout
      rw [hfr]

/-- C6: for every relocation block and entry, `ABS` entries are skipped (any
address outside the rewrite-target set keeps its word), and every other
entry's word at `resolved base + block VA + position` is rewritten from its
old value `v` to `v - preferred base + resolved base` (stated for pairwise
distinct rewrite targets, matching the sequential read-modify-write). -/
theorem c6_relocation (st : LoaderState) (pf : PELoaderInfo) (m : MappedPE)
    (block : Relocation) (entry : RelocationEntry)
    (hm : lookupLoaded st pf.file = some m)
    (hb : block ∈ m.pe.relocations) (he : entry ∈ block.entries)
    (habs : entry.ty ≠ relocAbs)
    (hnd : (relocTargets m.base m.pe.relocations).Nodup) :
    ∃ st', PELoader.handle_reloc st pf = .ok st' ∧
      st'.mem.words (m.base + block.virtual_address + entry.position) =
        st.mem.words (m.base + block.virtual_address + entry.position) -
          m.pe.imagebase + m.base ∧
      ∀ a, a ∉ relocTargets m.base m.pe.relocations →
        st'.mem.words a = st.mem.words a := by
  refine ⟨{ st with mem := (m.pe.relocations.foldl
      (PELoader.apply_block m.base m.pe.imagebase) st.mem) }, ?_, ?_, ?_⟩
  · unfold PELoader.handle_reloc
    rw [hm]
  · exact block_fold_write m.base m.pe.imagebase m.pe.relocations st.mem block entry
      hb he habs hnd
  · intro a ha
    exact block_fold_frame m.base m.pe.imagebase a m.pe.relocations st.mem ha

/-- C6 witness: the synthetic image with preferred base 0x1000 mapped at
0x2000, one non-`ABS` entry at position 8 in the block at VA 0x100: the word
at 0x2108 becomes `old - 0x1000 + 0x2000`, and untargeted words survive. -/
theorem c6_witness :
    ∃ st', PELoader.handle_reloc stC6 rInfoC6 = .ok st' ∧
      st'.mem.words (0x2000 + 0x100 + 8) =
        stC6.mem.words (0x2000 + 0x100 + 8) - 0x1000 + 0x2000 ∧
      ∀ a, a ∉ relocTargets 0x2000 rBinC6.relocations →
        st'.mem.words a = stC6.mem.words a :=
  c6_relocation stC6 rInfoC6 rMappedC6 ⟨0x100, [⟨relocAbs, 4⟩, ⟨3, 8⟩]⟩ ⟨3, 8⟩ rfl
    (by decide) (by decide) (by decide) (by decide)

/-- C7: for an imported entry whose name resolves in the dependency's export
table, `_load_iat` writes `dependency base + export RVA` at
`importer base + entry slot offset` (stated for pairwise distinct resolved
slot addresses). -/
theorem c7_import_write (st : LoaderState) (pf : PELoaderInfo) (dep : PEImport)
    (lib me libm : MappedPE) (entry : ImportEntry) (x : ExportEntry)
    (hr : st.ready = true)
    (hme : lookupLoaded st pf.file = some me)
    (hlib : lookupLoaded st lib.info.file = some libm)
    (hent : entry ∈ dep.entries)
    (hx : PELoader.exports_lookup libm.pe.export_entries entry.name = some x)
    (hnd : (iatTargets me.base libm.pe.export_entries dep.entries).Nodup) :
    ∃ st', PELoader.load_iat st pf dep lib = .ok st' ∧
      st'.mem.words (me.base + entry.iat_address) = lib.base + x.function_rva ∧
      st'.loaded = st.loaded := by
  refine ⟨{ st with mem := (dep.entries.foldl
      (PELoader.iat_write me.base lib.base libm.pe.export_entries) st.mem) }, ?_, ?_, rfl⟩
  · simp [PELoader.load_iat, hr, hme, hlib]
  · exact iat_fold_write me.base lib.base libm.pe.export_entries dep.entries st.mem
      entry x hent hx hnd

/-- C7 witness: image `X` (base 0x7000) importing `S` at slot offset 0x100
from image `Y` (base 0x9000, exporting `S` at RVA 0x40) ends with the word
`0x9040` at address `0x7100`. -/
theorem c7_witness :
    ∃ st', PELoader.load_iat stC7 xInfoC7 depC7 yMappedC7 = .ok st' ∧
      st'.mem.words (0x7000 + 0x100) = 0x9000 + 0x40 ∧
      st'.loaded = stC7.loaded :=
  c7_import_write stC7 xInfoC7 depC7 yMappedC7 ⟨xInfoC7, 0x7000, xBinC7⟩ yMappedC7
    ⟨"S", 0x100⟩ ⟨"S", 0x40⟩ rfl rfl rfl (by decide) rfl (by decide)

/-- C8: a dependency found neither among mapped identities nor in the queue is
skipped without raising and without any state change; an entry whose name the
dependency does not export is skipped without raising and its slot keeps its
prior word (stated for a slot address no resolved entry writes). -/
theorem c8_missing_soft :
    (∀ (h : PELoader.HandleFn) (st : LoaderState) (pf : PELoaderInfo) (dep : PEImport),
      (∀ p ∈ st.loaded, strContains p.1 dep.name = false) →
      (∀ item ∈ st.interactQueue, strContains item.file dep.name = false) →
      PELoader.handle_dep h st pf dep = .ok st) ∧
    (∀ (st : LoaderState) (pf : PELoaderInfo) (dep : PEImport) (lib me libm : MappedPE)
        (entry : ImportEntry),
      st.ready = true →
      lookupLoaded st pf.file = some me →
      lookupLoaded st lib.info.file = some libm →
      entry ∈ dep.entries →
      PELoader.exports_lookup libm.pe.export_entries entry.name = none →
      (me.base + entry.iat_address) ∉
        iatTargets me.base libm.pe.export_entries dep.entries →
      ∃ st', PELoader.load_iat st pf dep lib = .ok st' ∧
        st'.mem.words (me.base + entry.iat_address) =
          st.mem.words (me.base + entry.iat_address)) := by
  constructor
  · intro h st pf dep hkeys hq
    unfold PELoader.handle_dep
    have hkeys' : ∀ k ∈ st.loaded.map Prod.fst, strContains k dep.name = false := by
      intro k hk
      obtain ⟨p, hp, rfl⟩ := List.mem_map.mp hk
      exact hkeys p hp
    rw [iat_scan_no_match h st dep.name st.interactQueue none hq
      (st.loaded.map Prod.fst) hkeys']
  · intro st pf dep lib me libm entry hr hme hlib hent hmiss hout
    refine ⟨{ st with mem := (dep.entries.foldl
        (PELoader.iat_write me.base lib.base libm.pe.export_entries) st.mem) }, ?_, ?_⟩
    · simp [PELoader.load_iat, hr, hme, hlib]
    · exact iat_fold_frame me.base lib.base libm.pe.export_entries _ dep.entries
        st.mem hout

/-- C8 witness: the dependency `zzz` (nowhere mapped, nowhere queued) is
skipped leaving the state untouched, and the unexported symbol `T` leaves the
word 7 at its slot `0x7200` unchanged. -/
theorem c8_witness :
    PELoader.handle_dep (PELoader.handle noParse 1) stC7 xInfoC7 depC8miss = .ok stC7 ∧
      ∃ st', PELoader.load_iat stC7 xInfoC7 depC8 yMappedC7 = .ok st' ∧
        st'.mem.words (0x7000 + 0x200) = stC7.mem.words (0x7000 + 0x200) :=
  ⟨c8_missing_soft.1 (PELoader.handle noParse 1) stC7 xInfoC7 depC8miss
      (by decide) (by decide),
   c8_missing_soft.2 stC7 xInfoC7 depC8 yMappedC7 ⟨xInfoC7, 0x7000, xBinC7⟩ yMappedC7
      ⟨"T", 0x200⟩ rfl rfl rfl (by decide) rfl (by decide)⟩

end Hyperstone
